import Mathlib

/-!
Verification of the hangman-for-kids core against its specification.

The repository ships `src/main.rs` (configuration loading and the terminal
workflow).  The core modules it declares (`secret`, `dictionary`, `game`,
`image`, `application`) are referenced by `main.rs` but their sources are not
present, so the corresponding definitions below are modelled from the
specification text; definitions taken from `main.rs` itself say so in their
doc comments.
-/

namespace Hangman

/-! ## Constants from `src/main.rs` -/

/-- From `src/main.rs` (`const LIVES: u8 = 7`): number of wrong guesses allowed. -/
def LIVES : Nat := 7

/-- From `src/main.rs` (`const CONF_DEMO`): fallback secret used when no
configuration file can be found, as a list of characters. -/
def CONF_DEMO : List Char :=
  "- _Demo: add own words to config file and start a_gain_!".data

/-! ## Secret phrases

Modelled from the spec: the `secret` module is not under `src/`.
A `SecretPhrase` is an ordered sequence of characters, each tagged
`Hidden` (`hidden = true`) or `Clear` (`hidden = false`). -/

/-- Modelled from the spec: one character of a secret phrase with its
Hidden/Clear tag (`hidden = true` means the tag `Hidden`). -/
structure SChar where
  char : Char
  hidden : Bool
deriving DecidableEq, Repr

/-- Modelled from the spec: a secret phrase is an ordered sequence of tagged
characters. -/
abbrev SecretPhrase := List SChar

/-- Number of `Hidden`-tagged characters of a secret phrase. -/
def hiddenCount (secret : SecretPhrase) : Nat :=
  (secret.filter (·.hidden)).length

/-! ## Game state machine

Modelled from the spec: the `game` module is not under `src/`. -/

/-- Modelled from the spec: the round outcome `{Ongoing, Victory, Defeat}`. -/
inductive GameState where
  | Ongoing
  | Victory
  | Defeat
deriving DecidableEq, Repr

/-- Modelled from the spec: the mutable per-round record.  `revealed` is the
set of character positions additionally uncovered by correct guesses,
represented positionally alongside the secret. -/
structure GuessState where
  secret : SecretPhrase
  revealed : List Bool
  wrongGuesses : Nat
  maxLives : Nat
  lastGuessCorrect : Bool
  state : GameState
deriving DecidableEq, Repr

/-- Lives remaining; the spec invariant is
`lives-remaining = max-lives - wrong-guess-count`, never negative. -/
def GuessState.livesRemaining (gs : GuessState) : Nat :=
  gs.maxLives - gs.wrongGuesses

/-- Modelled from the spec: whether the guessed character matches some
`Hidden` position's underlying letter (case-insensitively) not yet revealed. -/
def hasMatchB (secret : SecretPhrase) (revealed : List Bool) (c : Char) : Bool :=
  (secret.zip revealed).any
    (fun p => p.1.hidden && !p.2 && (p.1.char.toLower == c.toLower))

/-- Modelled from the spec: mark all matching `Hidden` positions revealed. -/
def revealMatches (secret : SecretPhrase) (revealed : List Bool) (c : Char) :
    List Bool :=
  (secret.zip revealed).map
    (fun p => p.2 || (p.1.hidden && (p.1.char.toLower == c.toLower)))

/-- Modelled from the spec: every `Hidden`-tagged position is revealed. -/
def allRevealedB (secret : SecretPhrase) (revealed : List Bool) : Bool :=
  (secret.zip revealed).all (fun p => !p.1.hidden || p.2)

/-- Modelled from the spec: recompute the round state after a guess —
Victory if all Hidden positions revealed; else Defeat if lives-remaining
is 0; else Ongoing. -/
def recomputeState (secret : SecretPhrase) (revealed : List Bool)
    (maxLives wrong : Nat) : GameState :=
  if allRevealedB secret revealed then GameState.Victory
  else if maxLives - wrong = 0 then GameState.Defeat
  else GameState.Ongoing

/-- Modelled from the spec: configuration errors surfaced to the caller. -/
inductive ConfigError where
  | unrecognizedModifier
  | noHiddenChars
deriving DecidableEq, Repr

/-- Modelled from the spec: `new(secret, max_lives)` initializes
lives-remaining = max_lives, revealed = empty, state = Ongoing, and rejects
secrets with zero hidden characters as a configuration error. -/
def newGame (secret : SecretPhrase) (maxLives : Nat) :
    Except ConfigError GuessState :=
  if hiddenCount secret = 0 then Except.error ConfigError.noHiddenChars
  else Except.ok
    { secret := secret
      revealed := secret.map (fun _ => false)
      wrongGuesses := 0
      maxLives := maxLives
      lastGuessCorrect := false
      state := GameState.Ongoing }

/-- Modelled from the spec: `guess(state, character)`.  Terminal states absorb
input; a matching character reveals all matching positions and sets
`last-guess-correct`; otherwise the wrong-guess count is incremented; the
round state is then recomputed. -/
def guess (gs : GuessState) (c : Char) : GuessState :=
  if gs.state ≠ GameState.Ongoing then gs
  else if hasMatchB gs.secret gs.revealed c then
    let revealed := revealMatches gs.secret gs.revealed c
    { gs with
      revealed := revealed
      lastGuessCorrect := true
      state := recomputeState gs.secret revealed gs.maxLives gs.wrongGuesses }
  else
    { gs with
      wrongGuesses := gs.wrongGuesses + 1
      lastGuessCorrect := false
      state := recomputeState gs.secret gs.revealed gs.maxLives
        (gs.wrongGuesses + 1) }

/-- Modelled from the spec: number of `Hidden` positions already revealed. -/
def revealedHiddenCount (gs : GuessState) : Nat :=
  ((gs.secret.zip gs.revealed).filter (fun p => p.1.hidden && p.2)).length

/-- Modelled from the spec: `progress_fraction()` =
`count(Hidden ∧ revealed) / count(Hidden)`. -/
def progressFraction (gs : GuessState) : ℚ :=
  (revealedHiddenCount gs : ℚ) / (hiddenCount gs.secret : ℚ)

/-- Modelled from the spec: `rendered_mask()` — Hidden-and-unrevealed
positions render as the placeholder symbol, Clear or revealed positions as
the literal character. -/
def renderedMask (gs : GuessState) : List Char :=
  (gs.secret.zip gs.revealed).map
    (fun p => if p.1.hidden && !p.2 then '_' else p.1.char)

/-! ## Secret parser

Modelled from the spec: the `secret` and `dictionary` modules are not under
`src/`.  The configuration text is line oriented; lines are classified by
their first characters, and every other non-blank line is a candidate
secret. -/

/-- Modelled from the spec: `DisclosurePolicy`, selected by modifier lines. -/
inductive DisclosurePolicy where
  | SuccessRewarding
  | TraditionalRewarding
deriving DecidableEq, Repr

/-- Modelled from the spec and the help text of `src/main.rs`: the two
recognized modifier keywords; any other keyword is a configuration error
(`none`). -/
def parsePolicyKeyword (rest : List Char) : Option DisclosurePolicy :=
  if rest = "success-rewarding".data then some DisclosurePolicy.SuccessRewarding
  else if rest = "traditional-rewarding".data then
    some DisclosurePolicy.TraditionalRewarding
  else none

/-- Trim leading and trailing whitespace from a line of characters. -/
def trimChars (cs : List Char) : List Char :=
  ((cs.dropWhile Char.isWhitespace).reverse.dropWhile Char.isWhitespace).reverse

/-- Modelled from the spec: interpret a trimmed secret line.  The hint
delimiter `_` toggles a Clear span; outside a span non-whitespace characters
become `Hidden`; whitespace is always `Clear`; delimiters are dropped. -/
def parseSecretChars : List Char → Bool → SecretPhrase
  | [], _ => []
  | c :: rest, inHint =>
    if c = '_' then parseSecretChars rest (!inHint)
    else { char := c, hidden := !(inHint || c.isWhitespace) } ::
      parseSecretChars rest inHint

/-- Modelled from the spec: the classification of one configuration line. -/
inductive ConfigLine where
  | blank
  | comment
  | image (content : List Char)
  | modifier (policy : Option DisclosurePolicy)
  | secret (phrase : SecretPhrase)
deriving DecidableEq, Repr

/-- Modelled from the spec: classify one configuration line.  Blank lines and
lines whose first non-space character is `#` are ignored; lines whose first
character is `|` are image lines (marker removed); lines whose first
character is `:` are modifier lines; all other lines are candidate secrets,
trimmed before interpretation. -/
def classifyLine (line : List Char) : ConfigLine :=
  if trimChars line = [] then ConfigLine.blank
  else if (line.dropWhile Char.isWhitespace).head? = some '#' then
    ConfigLine.comment
  else if line.head? = some '|' then ConfigLine.image line.tail
  else if line.head? = some ':' then
    ConfigLine.modifier (parsePolicyKeyword line.tail)
  else ConfigLine.secret (parseSecretChars (trimChars line) false)

/-- Modelled from the spec: result of parsing a configuration — the
dictionary of candidate secrets in file order, the custom image lines in
file order, and the disclosure policy (last modifier wins). -/
structure ParsedConfig where
  dict : List SecretPhrase
  imageLines : List (List Char)
  policy : DisclosurePolicy
deriving DecidableEq, Repr

/-- Modelled from the spec: empty dictionary, no custom image, and the
default `success-rewarding` policy (the default per the help text of
`src/main.rs`). -/
def emptyConfig : ParsedConfig :=
  { dict := [], imageLines := [], policy := DisclosurePolicy.SuccessRewarding }

/-- Modelled from the spec: fold the classified lines into a `ParsedConfig`;
an unrecognized modifier keyword is a configuration error surfaced
immediately. -/
def parseLines : List (List Char) → ParsedConfig → Except ConfigError ParsedConfig
  | [], acc => Except.ok acc
  | l :: rest, acc =>
    match classifyLine l with
    | ConfigLine.blank => parseLines rest acc
    | ConfigLine.comment => parseLines rest acc
    | ConfigLine.image content =>
      parseLines rest { acc with imageLines := acc.imageLines ++ [content] }
    | ConfigLine.modifier none => Except.error ConfigError.unrecognizedModifier
    | ConfigLine.modifier (some p) => parseLines rest { acc with policy := p }
    | ConfigLine.secret ph =>
      parseLines rest { acc with dict := acc.dict ++ [ph] }

/-- Modelled from the spec: `parse(raw_text) -> Dictionary` on the lines of
the concatenated configuration sources. -/
def parseConfig (lines : List (List Char)) : Except ConfigError ParsedConfig :=
  parseLines lines emptyConfig

/-! ## Image model

Modelled from the spec: the `image` module is not under `src/`. -/

/-- Modelled from the spec: one image character with its fixed "revealable"
mask bit (`eligible = true` means it participates in progressive
disclosure). -/
structure IChar where
  char : Char
  eligible : Bool
deriving DecidableEq, Repr

/-- Modelled from the spec: an image template is an ordered sequence of
lines of masked characters. -/
abbrev ImageTemplate := List (List IChar)

/-- Number of disclosure-eligible characters of a template. -/
def eligibleCount (t : ImageTemplate) : Nat :=
  (t.map (fun l => (l.filter (·.eligible)).length)).sum

/-- The full static image: every character rendered as its template glyph. -/
def staticImage (t : ImageTemplate) : List (List Char) :=
  t.map (fun l => l.map (·.char))

/-- Modelled from the spec: the scalar disclosure fraction.  On Victory the
fraction is forced to 1; otherwise `SuccessRewarding` uses
`progress_fraction()` and `TraditionalRewarding` uses
`(max_lives - lives_remaining) / max_lives`. -/
def fractionFor (gs : GuessState) (p : DisclosurePolicy) : ℚ :=
  if gs.state = GameState.Victory then 1
  else
    match p with
    | DisclosurePolicy.SuccessRewarding => progressFraction gs
    | DisclosurePolicy.TraditionalRewarding =>
      ((gs.maxLives - gs.livesRemaining : Nat) : ℚ) / (gs.maxLives : ℚ)

/-- Modelled from the spec: the number of eligible characters to reveal,
`floor(fraction * N)` where `N` is the eligible-character count. -/
def revealCount (t : ImageTemplate) (gs : GuessState) (p : DisclosurePolicy) :
    Nat :=
  ⌊fractionFor gs p * (eligibleCount t : ℚ)⌋₊

/-- Render one line, revealing up to `k` remaining eligible characters in
reading order; returns the rendered line and the remaining budget. -/
def renderLine : List IChar → Nat → List Char × Nat
  | [], k => ([], k)
  | ic :: rest, k =>
    if ic.eligible then
      match k with
      | 0 => let r := renderLine rest 0; (' ' :: r.1, r.2)
      | k' + 1 => let r := renderLine rest k'; (ic.char :: r.1, r.2)
    else
      let r := renderLine rest k; (ic.char :: r.1, r.2)

/-- Render all lines of the template, revealing the first `k` eligible
characters in reading order (line by line, left to right). -/
def renderImage : ImageTemplate → Nat → List (List Char)
  | [], _ => []
  | l :: rest, k =>
    let r := renderLine l k
    r.1 :: renderImage rest r.2

/-- Modelled from the spec: `disclose(state, policy) -> visible_lines`.  A
template with zero eligible characters short-circuits to the full static
image (so the fraction, a quotient by the eligible count, is never
computed); otherwise the first `revealCount` eligible characters show their
glyph and the remaining eligible characters render as blanks. -/
def disclose (t : ImageTemplate) (gs : GuessState) (p : DisclosurePolicy) :
    List (List Char) :=
  if eligibleCount t = 0 then staticImage t
  else renderImage t (revealCount t gs p)

/-! ## Configuration assembly from `src/main.rs`

`main` reads each configuration file; when a file cannot be opened it tries
to write the template file and, in both the success and the failure branch
of that write, substitutes `CONF_DEMO` as that file's contribution; the
contributions are concatenated in order. -/

/-- Outcome of accessing one configuration file, as distinguished by
`src/main.rs`: the read succeeds with some contents, or the read fails and
the subsequent template write succeeds, or both fail. -/
inductive FileAccess where
  | readable (contents : List Char)
  | unreadableWriteOk
  | unreadableWriteFails
deriving DecidableEq, Repr

/-- From `src/main.rs` `main` (config loop): the text a file contributes to
the concatenated configuration. -/
def fileContribution : FileAccess → List Char
  | FileAccess.readable s => s
  | FileAccess.unreadableWriteOk => CONF_DEMO
  | FileAccess.unreadableWriteFails => CONF_DEMO

/-- From `src/main.rs` `main`: `config.push_str(&c)` over all files. -/
def assembleConfig (files : List FileAccess) : List Char :=
  files.foldl (fun acc f => acc ++ fileContribution f) []

/-- From `src/main.rs` `main` (lines 242-252): the game initialisation either
reports a configuration error and exits, or starts with the parsed
configuration. -/
inductive MainOutcome where
  | configError (e : ConfigError)
  | gameStarts (cfg : ParsedConfig)
deriving DecidableEq, Repr

/-- From `src/main.rs` `main`: `Application::new(&config)` — here the
spec-modelled `parseConfig` — decides between reporting the error and
starting the game. -/
def initGame (lines : List (List Char)) : MainOutcome :=
  match parseConfig lines with
  | Except.error e => MainOutcome.configError e
  | Except.ok cfg => MainOutcome.gameStarts cfg

/-! ## Derived measures -/

/-- Number of `Hidden` positions not yet revealed. -/
def unrevealedHiddenCount (gs : GuessState) : Nat :=
  ((gs.secret.zip gs.revealed).filter fun p => p.1.hidden && !p.2).length

/-- Termination measure of a round: every non-absorbed guess either reveals
at least one new Hidden position or costs one life. -/
def roundMeasure (gs : GuessState) : Nat :=
  unrevealedHiddenCount gs + (gs.maxLives - gs.wrongGuesses)

/-! ## Concrete fixtures used by witnesses -/

/-- A concrete Victory state used by witnesses. -/
def gsVictoryEx : GuessState :=
  { secret := [{ char := 'a', hidden := true }]
    revealed := [true]
    wrongGuesses := 2
    maxLives := 7
    lastGuessCorrect := true
    state := GameState.Victory }

/-- A template whose characters are all structural (none eligible). -/
def noEligibleTemplate : ImageTemplate :=
  [[{ char := '+', eligible := false }, { char := '-', eligible := false }],
   [{ char := '|', eligible := false }]]

/-- The concrete all-Hidden one-letter secret used to witness C1. -/
def c1Secret : SecretPhrase := [{ char := 'a', hidden := true }]

/-- The concrete start state `newGame c1Secret LIVES` used to witness C1. -/
def c1Start : GuessState :=
  { secret := c1Secret
    revealed := [false]
    wrongGuesses := 0
    maxLives := LIVES
    lastGuessCorrect := false
    state := GameState.Ongoing }

/-- The concrete start state `newGame c1Secret 2` used to witness C7. -/
def c7Start : GuessState :=
  { secret := c1Secret
    revealed := [false]
    wrongGuesses := 0
    maxLives := 2
    lastGuessCorrect := false
    state := GameState.Ongoing }

/-! ## Basic lemmas about `guess` -/

theorem guess_secret (gs : GuessState) (c : Char) : (guess gs c).secret = gs.secret := by
  unfold guess
  split
  · rfl
  · split <;> rfl

theorem guess_maxLives (gs : GuessState) (c : Char) :
    (guess gs c).maxLives = gs.maxLives := by
  unfold guess
  split
  · rfl
  · split <;> rfl

theorem guess_wrong_le (gs : GuessState) (c : Char) :
    gs.wrongGuesses ≤ (guess gs c).wrongGuesses := by
  unfold guess
  split
  · exact Nat.le_refl _
  · split
    · exact Nat.le_refl _
    · exact Nat.le_succ _

/-! ## C2: terminal states absorb input -/

/-- C2: if the round state is already Victory or Defeat, `guess` is a no-op:
the whole `GuessState` (hence lives-remaining, revealed set, wrong-guess
count, last-guess-correct and state) is returned unchanged. -/
theorem guess_terminal_noop (gs : GuessState) (c : Char)
    (h : gs.state = GameState.Victory ∨ gs.state = GameState.Defeat) :
    guess gs c = gs := by
  unfold guess
  rcases h with h | h <;> simp [h]

/-- Witness for C2 at a concrete Victory state and input character. -/
theorem guess_terminal_noop_witness : guess gsVictoryEx 'z' = gsVictoryEx :=
  guess_terminal_noop gsVictoryEx 'z' (Or.inl rfl)

/-! ## C8: initial lives -/

/-- C8: a `GuessState` created at round start has lives-remaining equal to the
configured maximum number of lives, and the default maximum (`LIVES` in
`src/main.rs`) is 7. -/
theorem newGame_livesRemaining (secret : SecretPhrase) (maxLives : Nat)
    (gs : GuessState) (h : newGame secret maxLives = Except.ok gs) :
    gs.livesRemaining = maxLives ∧ LIVES = 7 := by
  unfold newGame at h
  split at h
  · exact absurd h (by simp)
  · refine ⟨?_, rfl⟩
    cases h
    rfl

/-- Witness for C8 at a concrete one-character secret. -/
theorem newGame_livesRemaining_witness :
    ({ secret := [{ char := 'a', hidden := true }]
       revealed := [false]
       wrongGuesses := 0
       maxLives := LIVES
       lastGuessCorrect := false
       state := GameState.Ongoing } : GuessState).livesRemaining = LIVES ∧
      LIVES = 7 :=
  newGame_livesRemaining [{ char := 'a', hidden := true }] LIVES _ rfl

/-! ## C4: round trip of the secret line `"Guess _me_"` -/

/-- C4: the secret line `"Guess _me_"` with hint delimiter `_` parses to
Hidden `G,u,e,s,s`, a Clear space, and Clear `m,e`; the mask rendered before
any guess shows five placeholders, the literal space, and the literal
characters `m` and `e`. -/
theorem guess_me_roundtrip :
    classifyLine "Guess _me_".data =
      ConfigLine.secret
        [{ char := 'G', hidden := true }, { char := 'u', hidden := true },
         { char := 'e', hidden := true }, { char := 's', hidden := true },
         { char := 's', hidden := true }, { char := ' ', hidden := false },
         { char := 'm', hidden := false }, { char := 'e', hidden := false }] ∧
    (newGame (parseSecretChars "Guess _me_".data false) LIVES).map
        renderedMask =
      Except.ok ['_', '_', '_', '_', '_', ' ', 'm', 'e'] :=
  ⟨rfl, rfl⟩

/-! ## C6: templates with zero eligible characters -/

/-- C6: for a template with zero disclosure-eligible characters, `disclose`
returns the full static image for every game state and every policy; the
fraction (a quotient by the eligible count) is short-circuited away by the
zero-eligible check, so no division by zero occurs. -/
theorem disclose_zero_eligible (t : ImageTemplate) (gs : GuessState)
    (p : DisclosurePolicy) (h : eligibleCount t = 0) :
    disclose t gs p = staticImage t := by
  unfold disclose
  simp [h]

/-- Witness for C6 at a concrete zero-eligible template, state and policy. -/
theorem disclose_zero_eligible_witness :
    disclose noEligibleTemplate gsVictoryEx DisclosurePolicy.SuccessRewarding =
      staticImage noEligibleTemplate :=
  disclose_zero_eligible noEligibleTemplate gsVictoryEx
    DisclosurePolicy.SuccessRewarding rfl

/-! ## C10: demo fallback when a configuration file cannot be opened -/

theorem assembleConfig_foldl_acc (files : List FileAccess) (acc : List Char) :
    files.foldl (fun a f => a ++ fileContribution f) acc =
      acc ++ files.foldl (fun a f => a ++ fileContribution f) [] := by
  induction files generalizing acc with
  | nil => simp
  | cons f fs ih =>
    simp only [List.foldl_cons]
    rw [ih (acc ++ fileContribution f), ih ([] ++ fileContribution f)]
    simp [List.append_assoc]

theorem mem_assembleConfig (files : List FileAccess) (f : FileAccess)
    (hf : f ∈ files) (a : Char) (ha : a ∈ fileContribution f) :
    a ∈ assembleConfig files := by
  induction files with
  | nil => cases hf
  | cons g gs ih =>
    unfold assembleConfig
    simp only [List.foldl_cons, List.nil_append]
    rw [assembleConfig_foldl_acc gs (fileContribution g)]
    rcases List.mem_cons.mp hf with rfl | hmem
    · exact List.mem_append_left _ ha
    · exact List.mem_append_right _ (ih hmem)

/-- C10: a configuration file that cannot be opened contributes exactly the
built-in demo secret `CONF_DEMO` to the concatenated configuration, whether
the template-file write succeeds or fails, and the assembled configuration
is then non-empty, so the game starts instead of aborting. -/
theorem config_fallback (files : List FileAccess) (f : FileAccess)
    (hf : f ∈ files)
    (hb : f = FileAccess.unreadableWriteOk ∨
      f = FileAccess.unreadableWriteFails) :
    fileContribution f = CONF_DEMO ∧ assembleConfig files ≠ [] := by
  have hc : fileContribution f = CONF_DEMO := by
    rcases hb with rfl | rfl <;> rfl
  refine ⟨hc, ?_⟩
  have hmem : '-' ∈ assembleConfig files :=
    mem_assembleConfig files f hf '-' (by rw [hc]; decide)
  intro h
  rw [h] at hmem
  exact List.not_mem_nil _ hmem

/-- Witness for C10: a single unreadable file whose template write fails. -/
theorem config_fallback_witness :
    fileContribution FileAccess.unreadableWriteFails = CONF_DEMO ∧
      assembleConfig [FileAccess.unreadableWriteFails] ≠ [] :=
  config_fallback [FileAccess.unreadableWriteFails]
    FileAccess.unreadableWriteFails (List.mem_singleton.mpr rfl) (Or.inr rfl)

/-! ## C3: every other non-blank line is a candidate secret -/

/-- C3: every non-blank configuration line that is not a comment line, not an
image line and not a modifier line — whatever its first character — is
parsed into a candidate `SecretPhrase` and becomes a dictionary entry. -/
theorem secret_line_becomes_entry (line : List Char)
    (h1 : trimChars line ≠ [])
    (h2 : (line.dropWhile Char.isWhitespace).head? ≠ some '#')
    (h3 : line.head? ≠ some '|')
    (h4 : line.head? ≠ some ':') :
    parseConfig [line] =
      Except.ok
        { emptyConfig with
          dict := [parseSecretChars (trimChars line) false] } := by
  have hcl : classifyLine line =
      ConfigLine.secret (parseSecretChars (trimChars line) false) := by
    unfold classifyLine
    rw [if_neg h1, if_neg h2, if_neg h3, if_neg h4]
  simp [parseConfig, parseLines, hcl, emptyConfig]

/-- Witness for C3: a line starting with `-` (neither comment, image nor
modifier) becomes a dictionary entry. -/
theorem secret_line_becomes_entry_witness :
    parseConfig ["- dash".data] =
      Except.ok
        { emptyConfig with
          dict := [parseSecretChars (trimChars "- dash".data) false] } :=
  secret_line_becomes_entry "- dash".data (by decide) (by decide) (by decide)
    (by decide)

/-! ## C9: unrecognized modifier keywords abort initialisation -/

theorem parseLines_append (pre rest : List (List Char))
    (acc cfg : ParsedConfig) (h : parseLines pre acc = Except.ok cfg) :
    parseLines (pre ++ rest) acc = parseLines rest cfg := by
  induction pre generalizing acc with
  | nil =>
    simp only [parseLines] at h
    cases h
    simp
  | cons l pre ih =>
    rw [List.cons_append]
    cases hcl : classifyLine l <;>
      simp only [parseLines, hcl] at h ⊢
    case blank => exact ih _ h
    case comment => exact ih _ h
    case image content => exact ih _ h
    case modifier p =>
      cases p with
      | none => cases h
      | some p => simp only [parseLines] at h ⊢; exact ih _ h
    case secret ph => exact ih _ h

/-- C9: a modifier line (first character `:`) whose keyword is not one of the
two recognized `DisclosurePolicy` keywords makes configuration parsing stop
with `unrecognizedModifier` at once — whatever lines follow — and the
program reports the error instead of starting the game. -/
theorem unrecognized_modifier_rejected (pre post : List (List Char))
    (rest : List Char) (cfg : ParsedConfig)
    (h1 : parsePolicyKeyword rest = none)
    (h2 : parseLines pre emptyConfig = Except.ok cfg) :
    initGame (pre ++ (':' :: rest) :: post) =
      MainOutcome.configError ConfigError.unrecognizedModifier := by
  have hdw : (':' :: rest).dropWhile Char.isWhitespace = ':' :: rest := by
    rw [List.dropWhile_cons]
    simp
  have htrim : trimChars (':' :: rest) ≠ [] := by
    unfold trimChars
    rw [hdw]
    intro h
    have h' := List.reverse_eq_nil_iff.mp h
    have h'' := List.dropWhile_eq_nil_iff.mp h' ':'
      (List.mem_reverse.mpr (List.mem_cons_self _ _))
    simp at h''
  have hcl : classifyLine (':' :: rest) = ConfigLine.modifier none := by
    unfold classifyLine
    rw [if_neg htrim, hdw]
    simp only [List.head?_cons, List.tail_cons]
    rw [if_neg (by decide), if_neg (by decide), if_pos trivial, h1]
  unfold initGame parseConfig
  rw [parseLines_append pre ((':' :: rest) :: post) emptyConfig cfg h2]
  simp only [parseLines, hcl]

/-- Witness for C9: the single modifier line `:bogus` aborts initialisation. -/
theorem unrecognized_modifier_rejected_witness :
    initGame ([] ++ (':' :: "bogus".data) :: []) =
      MainOutcome.configError ConfigError.unrecognizedModifier :=
  unrecognized_modifier_rejected [] [] "bogus".data emptyConfig rfl rfl

/-! ## C1: seven wrong guesses end in Defeat exactly on the seventh -/

theorem hasMatchB_of_not_occur (secret : SecretPhrase) (revealed : List Bool)
    (c : Char) (h : ∀ sc ∈ secret, c.toLower ≠ sc.char.toLower) :
    hasMatchB secret revealed c = false := by
  unfold hasMatchB
  rw [List.any_eq_false]
  intro p hp
  have hmem := (List.of_mem_zip hp).1
  have hne : (p.1.char.toLower == c.toLower) = false :=
    beq_eq_false_iff_ne.mpr fun he => h p.1 hmem he.symm
  simp [hne]

theorem zip_self_map {α β : Type} (l : List α) (f : α → β) :
    l.zip (l.map f) = l.map fun a => (a, f a) := by
  induction l with
  | nil => rfl
  | cons a l ih => simp [ih]

theorem allRevealedB_init (secret : SecretPhrase)
    (h : hiddenCount secret ≠ 0) :
    allRevealedB secret (secret.map fun _ => false) = false := by
  obtain ⟨sc, hmem, hsc⟩ : ∃ sc ∈ secret, sc.hidden = true := by
    by_contra hc
    push_neg at hc
    apply h
    unfold hiddenCount
    rw [List.filter_eq_nil_iff.mpr fun a ha => by simp [hc a ha]]
    rfl
  unfold allRevealedB
  rw [zip_self_map, List.all_eq_false]
  exact ⟨(sc, false), List.mem_map_of_mem _ hmem, by simp [hsc]⟩

theorem wrongRun (cs : List Char) (gs : GuessState)
    (hstate : gs.state = GameState.Ongoing)
    (hrev : allRevealedB gs.secret gs.revealed = false)
    (hmiss : ∀ c ∈ cs, hasMatchB gs.secret gs.revealed c = false)
    (hlives : 0 < gs.maxLives - gs.wrongGuesses)
    (hlen : cs.length ≤ gs.maxLives - gs.wrongGuesses) :
    (cs.foldl guess gs).secret = gs.secret ∧
    (cs.foldl guess gs).revealed = gs.revealed ∧
    (cs.foldl guess gs).maxLives = gs.maxLives ∧
    (cs.foldl guess gs).wrongGuesses = gs.wrongGuesses + cs.length ∧
    (cs.foldl guess gs).state =
      (if gs.maxLives - (gs.wrongGuesses + cs.length) = 0 then GameState.Defeat
       else GameState.Ongoing) := by
  induction cs generalizing gs with
  | nil =>
    refine ⟨rfl, rfl, rfl, by simp, ?_⟩
    simp only [List.foldl_nil, List.length_nil, Nat.add_zero]
    rw [if_neg (by omega)]
    exact hstate
  | cons c cs ih =>
    have hmatch : hasMatchB gs.secret gs.revealed c = false :=
      hmiss c (List.mem_cons_self _ _)
    have hstep : guess gs c =
        { gs with
          wrongGuesses := gs.wrongGuesses + 1
          lastGuessCorrect := false
          state := recomputeState gs.secret gs.revealed gs.maxLives
            (gs.wrongGuesses + 1) } := by
      unfold guess
      rw [if_neg (by simp [hstate]), if_neg (by simp [hmatch])]
    have hsec : (guess gs c).secret = gs.secret := guess_secret gs c
    have hrev2 : (guess gs c).revealed = gs.revealed := by rw [hstep]
    have hml : (guess gs c).maxLives = gs.maxLives := guess_maxLives gs c
    have hwg : (guess gs c).wrongGuesses = gs.wrongGuesses + 1 := by
      rw [hstep]
    rw [List.foldl_cons]
    by_cases h0 : gs.maxLives - (gs.wrongGuesses + 1) = 0
    · have hcs : cs = [] := by
        have hl := hlen
        rw [List.length_cons] at hl
        have : cs.length = 0 := by omega
        exact List.eq_nil_of_length_eq_zero this
      subst hcs
      rw [List.foldl_nil, hstep]
      refine ⟨rfl, rfl, rfl, by simp, ?_⟩
      show recomputeState gs.secret gs.revealed gs.maxLives
          (gs.wrongGuesses + 1) = _
      unfold recomputeState
      rw [if_neg (by simp [hrev]), if_pos h0, if_pos (by simpa using h0)]
    · have hstate' : (guess gs c).state = GameState.Ongoing := by
        rw [hstep]
        show recomputeState _ _ _ _ = _
        unfold recomputeState
        rw [if_neg (by simp [hrev]), if_neg h0]
      obtain ⟨e1, e2, e3, e4, e5⟩ := ih (guess gs c) hstate'
        (by rw [hsec, hrev2]; exact hrev)
        (by
          intro c' hc'
          rw [hsec, hrev2]
          exact hmiss c' (List.mem_cons_of_mem _ hc'))
        (by rw [hml, hwg]; omega)
        (by
          rw [hml, hwg]
          rw [List.length_cons] at hlen
          omega)
      refine ⟨by rw [e1, hsec], by rw [e2, hrev2], by rw [e3, hml], ?_, ?_⟩
      · rw [e4, hwg, List.length_cons]
        omega
      · rw [e5, hml, hwg, List.length_cons]
        have hc : gs.maxLives - (gs.wrongGuesses + 1 + cs.length) =
            gs.maxLives - (gs.wrongGuesses + (cs.length + 1)) := by omega
        rw [hc]

/-- C1: starting from `newGame secret LIVES` (max lives 7) with every secret
character Hidden-eligible, any 7 consecutive guesses of letters not
occurring in the secret leave the round Ongoing with lives-remaining `7 - k`
after each proper prefix of `k < 7` guesses, and turn it to Defeat with
lives-remaining 0 exactly on the 7th. -/
theorem defeat_on_seventh (secret : SecretPhrase) (gs0 : GuessState)
    (cs : List Char)
    (hnew : newGame secret LIVES = Except.ok gs0)
    (hlen : cs.length = 7)
    (hmiss : ∀ c ∈ cs, ∀ sc ∈ secret, c.toLower ≠ sc.char.toLower) :
    ∀ k, k ≤ 7 →
      ((cs.take k).foldl guess gs0).state =
        (if k = 7 then GameState.Defeat else GameState.Ongoing) ∧
      ((cs.take k).foldl guess gs0).livesRemaining = 7 - k := by
  unfold newGame at hnew
  split at hnew
  · exact absurd hnew (by simp)
  · rename_i hhid
    cases hnew
    intro k hk
    have hkl : (cs.take k).length = k := by
      rw [List.length_take, hlen]
      omega
    obtain ⟨e1, e2, e3, e4, e5⟩ := wrongRun (cs.take k)
      { secret := secret
        revealed := secret.map fun _ => false
        wrongGuesses := 0
        maxLives := LIVES
        lastGuessCorrect := false
        state := GameState.Ongoing }
      rfl
      (allRevealedB_init secret hhid)
      (fun c hc =>
        hasMatchB_of_not_occur secret _ c (hmiss c (List.take_subset k cs hc)))
      (by show 0 < LIVES - 0; decide)
      (by
        rw [hkl]
        show k ≤ 7
        exact hk)
    constructor
    · rw [e5, hkl]
      exact if_congr (by show 7 - (0 + k) = 0 ↔ k = 7; omega) rfl rfl
    · show _ - _ = _
      rw [e3, e4, hkl]
      show 7 - (0 + k) = 7 - k
      omega

/-- Witness for C1: seven guesses of `x` against the all-Hidden secret `a`
reach Defeat with lives-remaining 0 on the seventh guess. -/
theorem defeat_on_seventh_witness :
    (((List.replicate 7 'x').take 7).foldl guess c1Start).state =
      (if 7 = 7 then GameState.Defeat else GameState.Ongoing) ∧
    (((List.replicate 7 'x').take 7).foldl guess c1Start).livesRemaining =
      7 - 7 :=
  defeat_on_seventh c1Secret c1Start (List.replicate 7 'x') rfl (by decide)
    (by decide) 7 (by decide)

/-! ## C7: the round terminates within hiddenCount + maxLives guesses -/

theorem guess_not_ongoing (gs : GuessState) (c : Char)
    (h : gs.state ≠ GameState.Ongoing) : guess gs c = gs := by
  unfold guess
  rw [if_pos h]

theorem foldl_guess_absorb (cs : List Char) (gs : GuessState)
    (h : gs.state ≠ GameState.Ongoing) : cs.foldl guess gs = gs := by
  induction cs with
  | nil => rfl
  | cons c cs ih => rw [List.foldl_cons, guess_not_ongoing gs c h, ih]

theorem unrevealed_pos (gs : GuessState)
    (h : allRevealedB gs.secret gs.revealed = false) :
    0 < unrevealedHiddenCount gs := by
  unfold allRevealedB at h
  obtain ⟨p, hp, hnp⟩ := List.all_eq_false.mp h
  apply List.length_pos.mpr
  apply List.ne_nil_of_mem (a := p)
  rw [List.mem_filter]
  exact ⟨hp, by revert hnp; cases p.1.hidden <;> cases p.2 <;> simp⟩

theorem recompute_not_ongoing (secret : SecretPhrase) (revealed : List Bool)
    (maxLives wrong : Nat) (h : maxLives - wrong = 0) :
    recomputeState secret revealed maxLives wrong ≠ GameState.Ongoing := by
  unfold recomputeState
  by_cases hA : allRevealedB secret revealed = true
  · rw [if_pos hA]
    simp
  · rw [if_neg hA, if_pos h]
    simp

theorem recompute_ongoing_not_revealed (secret : SecretPhrase)
    (revealed : List Bool) (maxLives wrong : Nat)
    (h : recomputeState secret revealed maxLives wrong = GameState.Ongoing) :
    allRevealedB secret revealed = false := by
  unfold recomputeState at h
  by_cases har : allRevealedB secret revealed = true
  · rw [if_pos har] at h
    cases h
  · exact Bool.not_eq_true _ ▸ har

theorem countP_lt_countP {α : Type} (l : List α) (p q : α → Bool)
    (hle : ∀ x ∈ l, p x = true → q x = true) (x : α) (hx : x ∈ l)
    (hq : q x = true) (hp : p x = false) :
    l.countP p < l.countP q := by
  induction l with
  | nil => cases hx
  | cons a l ih =>
    rw [List.countP_cons, List.countP_cons]
    have hmono : l.countP p ≤ l.countP q :=
      List.countP_mono_left fun y hy => hle y (List.mem_cons_of_mem _ hy)
    rcases List.mem_cons.mp hx with rfl | hx'
    · simp [hp, hq]
      omega
    · have h1 := ih (fun y hy => hle y (List.mem_cons_of_mem _ hy)) hx'
      have h2 : (if p a then 1 else 0) ≤ (if q a then 1 else 0) := by
        by_cases hpa : p a = true
        · simp [hpa, hle a (List.mem_cons_self _ _) hpa]
        · simp [hpa]
      omega

theorem zip_map_snd {α β γ : Type} (l : List α) (r : List β) (f : α × β → γ) :
    l.zip ((l.zip r).map f) = (l.zip r).map fun p => (p.1, f p) := by
  induction l generalizing r with
  | nil => rfl
  | cons a l ih =>
    cases r with
    | nil => rfl
    | cons b r => simp [ih]

theorem guess_decreases (gs : GuessState) (c : Char)
    (hst : gs.state = GameState.Ongoing) :
    (guess gs c).state ≠ GameState.Ongoing ∨
      roundMeasure (guess gs c) < roundMeasure gs := by
  unfold guess
  rw [if_neg (by simp [hst])]
  by_cases hm : hasMatchB gs.secret gs.revealed c = true
  · rw [if_pos hm]
    right
    unfold roundMeasure unrevealedHiddenCount
    apply Nat.add_lt_add_right
    show ((gs.secret.zip (revealMatches gs.secret gs.revealed c)).filter
        fun p => p.1.hidden && !p.2).length < _
    unfold revealMatches
    rw [zip_map_snd, ← List.countP_eq_length_filter,
      ← List.countP_eq_length_filter, List.countP_map]
    obtain ⟨p, hp, hpp⟩ := List.any_eq_true.mp hm
    have hph : p.1.hidden = true := by
      revert hpp; cases p.1.hidden <;> simp
    have hpr : p.2 = false := by
      revert hpp; cases p.2 <;> cases p.1.hidden <;> simp
    have hpm : (p.1.char.toLower == c.toLower) = true := by
      revert hpp; cases (p.1.char.toLower == c.toLower) <;> simp
    apply countP_lt_countP _ _ _ ?hle p hp
    · show (p.1.hidden && !p.2) = true
      rw [hph, hpr]
      rfl
    · show (fun q => q.1.hidden && !q.2)
        ((fun q => (q.1, q.2 || (q.1.hidden && (q.1.char.toLower == c.toLower)))) p) = false
      simp [hph, hpr, hpm]
    case hle =>
      intro q _
      rcases q with ⟨a, b⟩
      cases b <;> cases ha : a.hidden <;> simp [ha, Function.comp]
  · rw [if_neg hm]
    by_cases h0 : gs.maxLives - (gs.wrongGuesses + 1) = 0
    · left
      exact recompute_not_ongoing _ _ _ _ h0
    · right
      show unrevealedHiddenCount _ + _ < unrevealedHiddenCount gs + _
      have he : unrevealedHiddenCount
          { gs with
            wrongGuesses := gs.wrongGuesses + 1
            lastGuessCorrect := false
            state := recomputeState gs.secret gs.revealed gs.maxLives
              (gs.wrongGuesses + 1) } = unrevealedHiddenCount gs := rfl
      rw [he]
      apply Nat.add_lt_add_left
      show gs.maxLives - (gs.wrongGuesses + 1) < gs.maxLives - gs.wrongGuesses
      omega

theorem guess_ongoing_not_revealed (gs : GuessState) (c : Char)
    (hst : gs.state = GameState.Ongoing)
    (h : (guess gs c).state = GameState.Ongoing) :
    allRevealedB (guess gs c).secret (guess gs c).revealed = false := by
  unfold guess at h ⊢
  rw [if_neg (by simp [hst])] at h ⊢
  by_cases hm : hasMatchB gs.secret gs.revealed c = true
  · rw [if_pos hm] at h ⊢
    exact recompute_ongoing_not_revealed _ _ _ _ h
  · rw [if_neg hm] at h ⊢
    exact recompute_ongoing_not_revealed _ _ _ _ h

theorem runEnds (cs : List Char) (gs : GuessState)
    (hJ : gs.state = GameState.Ongoing →
      allRevealedB gs.secret gs.revealed = false)
    (hlen : roundMeasure gs ≤ cs.length) :
    (cs.foldl guess gs).state ≠ GameState.Ongoing := by
  induction cs generalizing gs with
  | nil =>
    intro hcon
    rw [List.foldl_nil] at hcon
    have hpos := unrevealed_pos gs (hJ hcon)
    unfold roundMeasure at hlen
    rw [List.length_nil] at hlen
    omega
  | cons c cs ih =>
    rw [List.foldl_cons]
    by_cases hst : gs.state = GameState.Ongoing
    · by_cases hst' : (guess gs c).state = GameState.Ongoing
      · apply ih (guess gs c) (fun _ => guess_ongoing_not_revealed gs c hst hst')
        rcases guess_decreases gs c hst with hterm | hdec
        · exact absurd hst' hterm
        · rw [List.length_cons] at hlen
          omega
      · rw [foldl_guess_absorb cs _ hst']
        exact hst'
    · rw [guess_not_ongoing gs c hst, foldl_guess_absorb cs gs hst]
      exact hst

theorem unrevealed_init (secret : SecretPhrase) (maxLives : Nat) :
    unrevealedHiddenCount
      { secret := secret
        revealed := secret.map fun _ => false
        wrongGuesses := 0
        maxLives := maxLives
        lastGuessCorrect := false
        state := GameState.Ongoing } = hiddenCount secret := by
  unfold unrevealedHiddenCount hiddenCount
  show ((secret.zip (secret.map fun _ => false)).filter
      fun p => p.1.hidden && !p.2).length = _
  rw [zip_self_map, ← List.countP_eq_length_filter, List.countP_map,
    ← List.countP_eq_length_filter]
  apply List.countP_congr
  intro a _
  simp

/-- C7: for every secret with at least one Hidden character (enforced by
`newGame`), every sequence of `hiddenCount secret + maxLives` guesses from
the initial Ongoing state ends in Victory or Defeat: each non-absorbed guess
either reveals at least one new Hidden position or costs one life. -/
theorem round_terminates (secret : SecretPhrase) (maxLives : Nat)
    (gs0 : GuessState) (cs : List Char)
    (hnew : newGame secret maxLives = Except.ok gs0)
    (hlen : cs.length = hiddenCount secret + maxLives) :
    (cs.foldl guess gs0).state = GameState.Victory ∨
      (cs.foldl guess gs0).state = GameState.Defeat := by
  unfold newGame at hnew
  split at hnew
  · exact absurd hnew (by simp)
  · rename_i hhid
    cases hnew
    have hend := runEnds cs
      { secret := secret
        revealed := secret.map fun _ => false
        wrongGuesses := 0
        maxLives := maxLives
        lastGuessCorrect := false
        state := GameState.Ongoing }
      (fun _ => allRevealedB_init secret hhid)
      (by
        unfold roundMeasure
        rw [unrevealed_init, hlen]
        show _ + (maxLives - 0) ≤ _
        omega)
    cases hs : (List.foldl guess _ cs).state with
    | Ongoing => exact absurd hs hend
    | Victory => exact Or.inl rfl
    | Defeat => exact Or.inr rfl

/-- Witness for C7: against the all-Hidden secret `a` with 2 lives, the three
wrong guesses `x x x` end the round (in Defeat). -/
theorem round_terminates_witness :
    ((['x', 'x', 'x'] : List Char).foldl guess c7Start).state =
        GameState.Victory ∨
      ((['x', 'x', 'x'] : List Char).foldl guess c7Start).state =
        GameState.Defeat :=
  round_terminates c1Secret 2 c7Start ['x', 'x', 'x'] rfl rfl

/-! ## C5: progress fraction and image-reveal count are non-decreasing -/

theorem countP_zip_fst_le {α β : Type} (l : List α) (r : List β)
    (q : α → Bool) :
    (l.zip r).countP (fun p => q p.1) ≤ l.countP q := by
  induction l generalizing r with
  | nil => simp
  | cons a l ih =>
    cases r with
    | nil => simp
    | cons b r =>
      rw [List.zip_cons_cons, List.countP_cons, List.countP_cons]
      have h := ih r
      by_cases hq : q a = true <;> simp [hq] <;> omega

theorem revealedHidden_le_hidden (gs : GuessState) :
    revealedHiddenCount gs ≤ hiddenCount gs.secret := by
  unfold revealedHiddenCount hiddenCount
  rw [← List.countP_eq_length_filter, ← List.countP_eq_length_filter]
  calc (gs.secret.zip gs.revealed).countP (fun p => p.1.hidden && p.2) ≤
      (gs.secret.zip gs.revealed).countP (fun p => p.1.hidden) := by
        apply List.countP_mono_left
        intro p _
        cases hh : p.1.hidden <;> simp [hh]
    _ ≤ gs.secret.countP (·.hidden) := countP_zip_fst_le _ _ _

theorem revealedHidden_le_guess (gs : GuessState) (c : Char) :
    revealedHiddenCount gs ≤ revealedHiddenCount (guess gs c) := by
  unfold guess
  by_cases h1 : gs.state ≠ GameState.Ongoing
  · rw [if_pos h1]
  · rw [if_neg h1]
    by_cases hm : hasMatchB gs.secret gs.revealed c = true
    · rw [if_pos hm]
      show revealedHiddenCount gs ≤ revealedHiddenCount
        { gs with
          revealed := revealMatches gs.secret gs.revealed c
          lastGuessCorrect := true
          state := recomputeState gs.secret
            (revealMatches gs.secret gs.revealed c) gs.maxLives
            gs.wrongGuesses }
      unfold revealedHiddenCount revealMatches
      show ((gs.secret.zip gs.revealed).filter
          fun p => p.1.hidden && p.2).length ≤
        ((gs.secret.zip ((gs.secret.zip gs.revealed).map
            fun p => p.2 || (p.1.hidden && (p.1.char.toLower == c.toLower)))).filter
          fun p => p.1.hidden && p.2).length
      rw [zip_map_snd, ← List.countP_eq_length_filter,
        ← List.countP_eq_length_filter, List.countP_map]
      apply List.countP_mono_left
      intro p _
      rcases p with ⟨a, b⟩
      cases b <;> cases ha : a.hidden <;> simp [ha, Function.comp]
    · rw [if_neg hm]
      exact Nat.le_refl _

theorem progressFraction_le_guess (gs : GuessState) (c : Char) :
    progressFraction gs ≤ progressFraction (guess gs c) := by
  unfold progressFraction
  rw [guess_secret]
  rcases Nat.eq_zero_or_pos (hiddenCount gs.secret) with h | h
  · rw [h]
    simp
  · have hc : (0 : ℚ) < (hiddenCount gs.secret : ℚ) := by exact_mod_cast h
    rw [div_le_div_iff_of_pos_right hc]
    exact_mod_cast revealedHidden_le_guess gs c

theorem progressFraction_le_one (gs : GuessState) :
    progressFraction gs ≤ 1 := by
  unfold progressFraction
  rcases Nat.eq_zero_or_pos (hiddenCount gs.secret) with h | h
  · rw [h]
    simp
  · have hc : (0 : ℚ) < (hiddenCount gs.secret : ℚ) := by exact_mod_cast h
    rw [div_le_one hc]
    exact_mod_cast revealedHidden_le_hidden gs

theorem traditionalFraction_le_one (gs : GuessState) :
    ((gs.maxLives - gs.livesRemaining : Nat) : ℚ) / (gs.maxLives : ℚ) ≤ 1 := by
  rcases Nat.eq_zero_or_pos gs.maxLives with h | h
  · rw [h]
    simp
  · have hc : (0 : ℚ) < (gs.maxLives : ℚ) := by exact_mod_cast h
    rw [div_le_one hc]
    exact_mod_cast Nat.sub_le _ _

theorem fractionFor_le_guess (gs : GuessState) (c : Char)
    (p : DisclosurePolicy) :
    fractionFor gs p ≤ fractionFor (guess gs c) p := by
  by_cases h1 : gs.state ≠ GameState.Ongoing
  · rw [guess_not_ongoing gs c h1]
  · push_neg at h1
    unfold fractionFor
    rw [if_neg (by rw [h1]; simp)]
    by_cases hv : (guess gs c).state = GameState.Victory
    · rw [if_pos hv]
      cases p
      · exact progressFraction_le_one gs
      · exact traditionalFraction_le_one gs
    · rw [if_neg hv]
      cases p
      · exact progressFraction_le_guess gs c
      · show ((gs.maxLives - gs.livesRemaining : Nat) : ℚ) / (gs.maxLives : ℚ) ≤
          ((guess gs c).maxLives - (guess gs c).livesRemaining : Nat) /
            ((guess gs c).maxLives : ℚ)
        unfold GuessState.livesRemaining
        rw [guess_maxLives]
        rcases Nat.eq_zero_or_pos gs.maxLives with h0 | h0
        · rw [h0]
          simp
        · have hc : (0 : ℚ) < (gs.maxLives : ℚ) := by exact_mod_cast h0
          rw [div_le_div_iff_of_pos_right hc]
          have hw := guess_wrong_le gs c
          have : gs.maxLives - (gs.maxLives - gs.wrongGuesses) ≤
              gs.maxLives - (gs.maxLives - (guess gs c).wrongGuesses) := by
            omega
          exact_mod_cast this

/-- C5: within a round, a guess operation never decreases
`progress_fraction()`, and never decreases the image-reveal count under
either the SuccessRewarding or the TraditionalRewarding policy; applied to
each successive pair of states of a round this gives the claimed
monotonicity. -/
theorem progress_and_reveal_monotone (gs : GuessState) (c : Char)
    (t : ImageTemplate) (p : DisclosurePolicy) :
    progressFraction gs ≤ progressFraction (guess gs c) ∧
      revealCount t gs p ≤ revealCount t (guess gs c) p := by
  refine ⟨progressFraction_le_guess gs c, ?_⟩
  unfold revealCount
  apply Nat.floor_le_floor
  apply mul_le_mul_of_nonneg_right (fractionFor_le_guess gs c p)
  exact Nat.cast_nonneg _

end Hangman
